import Mathlib

/-!
Verification of the `timeperiod` module (a Python port of Perl's
Time::Period).  The module decides whether a timestamp lies inside a
textual time-period expression such as "wd \x7bmo-fr\x7d hr \x7b9-17\x7d".

The development shallowly embeds `src/timeperiod.py`:
strings are `List Char`, the timestamp is a structure carrying the
fields the evaluators project (`year`, `month`, `day`, `hour`,
`minute`, `second`, the native `weekday` index with Monday = 0, and
the 1-based day of year `yday`), and code that can raise
`InvalidFormat` is modelled in `Except String`.  Integer division
mirrors the module's Python 2 semantics (`/` on ints is floor
division, as documented by the first trove classifier in `setup.py`);
all divisors here are positive, where `Int` division in Lean agrees
with Python's floor division.  All recursion is structural (fuel is
used where the Python loop consumes a computed span) so that every
definition evaluates inside the kernel.
-/

namespace Timeperiod

/-- Python's `\s` character class for ASCII strings. -/
def pyWs (c : Char) : Bool :=
  c = ' ' || c = '\t' || c = '\n' || c = '\r' || c = '\x0b' || c = '\x0c'

/-- Python's `\w` character class for ASCII strings. -/
def wordChar (c : Char) : Bool :=
  c.isAlpha || c.isDigit || c = '_'

/-- `str.split(sep)` / `re.split(sep)` for a single-character separator:
splits at every occurrence, keeping empty fragments. -/
def split_on_char (sep : Char) : List Char → List (List Char)
  | [] => [[]]
  | c :: rest =>
    match split_on_char sep rest with
    | [] => [[]]
    | g :: gs => if c = sep then [] :: g :: gs else (c :: g) :: gs

/-- `re.split("\s", s)`: splits at every single whitespace character. -/
def split_on_ws : List Char → List (List Char)
  | [] => [[]]
  | c :: rest =>
    match split_on_ws rest with
    | [] => [[]]
    | g :: gs => if pyWs c then [] :: g :: gs else (c :: g) :: gs

/-- `re.sub(r"^\s*|\s*$", '', s)`: strip leading and trailing whitespace. -/
def strip (s : List Char) : List Char :=
  ((s.dropWhile pyWs).reverse.dropWhile pyWs).reverse

/-- Fuel-driven worker deleting every whitespace character that sits
immediately after a trigger character (cascading through a whole
whitespace run), as the greedy pattern `trig\s*` does. -/
def del_ws_after_f : Nat → (Char → Bool) → List Char → List Char
  | 0, _, s => s
  | _ + 1, _, [] => []
  | _ + 1, _, [c] => [c]
  | f + 1, trig, a :: b :: rest =>
    if trig a && pyWs b then del_ws_after_f f trig (a :: rest)
    else a :: del_ws_after_f f trig (b :: rest)

/-- Delete whitespace runs that directly follow a trigger character. -/
def del_ws_after (trig : Char → Bool) (s : List Char) : List Char :=
  del_ws_after_f s.length trig s

/-- Fuel-driven worker deleting every whitespace run that sits
immediately before a trigger character (the greedy pattern `\s*trig`);
with `endT` set, runs at the end of the string are deleted as well
(the `$` alternative of the second substitution). -/
def del_ws_bre_f : Nat → (Char → Bool) → Bool → List Char → List Char
  | 0, _, _, s => s
  | _ + 1, _, _, [] => []
  | f + 1, trig, endT, c :: rest =>
    if pyWs c then
      let run := (c :: rest).takeWhile pyWs
      match (c :: rest).dropWhile pyWs with
      | [] => if endT then [] else run
      | d :: tail =>
        if trig d then del_ws_bre_f f trig endT (d :: tail)
        else run ++ del_ws_bre_f f trig endT (d :: tail)
    else c :: del_ws_bre_f f trig endT rest

/-- Delete whitespace runs directly before a trigger character
(and, when `endT` is set, at the end of the string). -/
def del_ws_bre (trig : Char → Bool) (endT : Bool) (s : List Char) : List Char :=
  del_ws_bre_f s.length trig endT s

/-- `re.sub(r"}(?=[^,])", '}|', s)`: insert the OR marker after every
closing brace that is followed by a character other than a comma. -/
def or_marker : List Char → List Char
  | [] => []
  | [a] => [a]
  | a :: b :: rest =>
    if a = '\x7d' && b != ',' then a :: '|' :: or_marker (b :: rest)
    else a :: or_marker (b :: rest)

/-- `str.lower()` for ASCII strings. -/
def pyLower (s : List Char) : List Char :=
  s.map Char.toLower

/-- The normalizer of `in_period`: the seven regex rewrites applied in
source order, followed by lowercasing. -/
def normalize (s : List Char) : List Char :=
  pyLower (or_marker
    (del_ws_after (· = '\x7d') (del_ws_bre (· = '\x7d') false
      (del_ws_after (· = '\x7b')
        (del_ws_after (· = '-') (del_ws_bre (· = '-') false
          (del_ws_after (· = ',')
            (del_ws_bre (· = '\x7b') true
              (strip s)))))))))

/-- The value of a non-empty ASCII digit string. -/
def digitsVal (ds : List Char) : Option Nat :=
  if ds ≠ [] && ds.all Char.isDigit then
    some (ds.foldl (fun a c => 10 * a + (c.toNat - 48)) 0)
  else none

/-- Python's `int(str)`: optional surrounding whitespace, an optional
sign, then decimal digits; anything else raises `ValueError`. -/
def pyInt (s : List Char) : Option Int :=
  match strip s with
  | '+' :: ds => (digitsVal ds).map Int.ofNat
  | '-' :: ds => (digitsVal ds).map (fun n => -(Int.ofNat n))
  | ds => (digitsVal ds).map Int.ofNat

/-- The evaluation context: the fields of the Python `datetime` that the
scale evaluators project.  `weekday` is the native index (Monday = 0 …
Sunday = 6) and `yday` is `int(dt.strftime('%j'))`. -/
structure PyDateTime where
  year : Nat
  month : Nat
  day : Nat
  hour : Nat
  minute : Nat
  second : Nat
  weekday : Nat
  yday : Nat

/-- The scale kinds of the dispatch table. -/
inductive Scale where
  | yr | mo | wk | yd | md | wd | hr | min | sec
deriving DecidableEq, Inhabited

/-- The `SCALES` dispatch table: maps a scale code (short or long form)
to its evaluator kind. -/
def SCALES (s : List Char) : Option Scale :=
  if s = "yr".data || s = "year".data then some .yr
  else if s = "mo".data || s = "month".data then some .mo
  else if s = "wk".data || s = "week".data then some .wk
  else if s = "yd".data || s = "yday".data then some .yd
  else if s = "md".data || s = "mday".data then some .md
  else if s = "wd".data || s = "wday".data then some .wd
  else if s = "hr".data || s = "hour".data then some .hr
  else if s = "min".data || s = "minute".data then some .min
  else if s = "sec".data || s = "second".data then some .sec
  else none

/-- Lazy body of `\{(.*?)\}`: the characters up to the first closing
brace, failing if a newline (which `.` does not match) or the end of
the string comes first. -/
def scan_body : List Char → Option (List Char)
  | [] => none
  | c :: rest =>
    if c = '\x7d' then some []
    else if c = '\n' then none
    else (scan_body rest).map (c :: ·)

/-- One anchored attempt of `(\w+?)\{(.*?)\}`: a non-empty maximal run
of word characters followed by an opening brace, then the lazy body
(the lazy `\w+?` succeeds at a position exactly when the full word run
there is followed by `{`, since no shorter run is). -/
def try_match (s : List Char) : Option (List Char × List Char) :=
  let word := s.takeWhile wordChar
  if word = [] then none
  else
    match s.dropWhile wordChar with
    | c :: body => if c = '\x7b' then (scan_body body).map (fun b => (word, b)) else none
    | [] => none

/-- `re.search`: try the anchored match at every start position, left
to right. -/
def search_scale : List Char → Option (List Char × List Char)
  | [] => none
  | c :: rest =>
    match try_match (c :: rest) with
    | some r => some r
    | none => search_scale rest

/-- `_parse_scale`: extract the scale code and the whitespace-separated
range tokens of one `code{ranges}` fragment, validating the code
against the dispatch table. -/
def parse_scale (scale_exp : List Char) :
    Except String (List Char × Scale × List (List Char)) :=
  match search_scale scale_exp with
  | none => .error "Unable to parse the given time period."
  | some (sc, body) =>
    match SCALES sc with
    | none => .error (String.mk sc ++ " is not a valid scale.")
    | some k => .ok (sc, k, split_on_ws body)

/-- `_splitrange`: split a range token on `-` into the mandatory low
bound and the optional high bound (extra fragments are ignored). -/
def splitrange (r : List Char) : List Char × Option (List Char) :=
  match split_on_char '-' r with
  | [] => (r, none)
  | [low] => (low, none)
  | low :: high :: _ => (low, some high)

/-- The out-of-domain message of `_in_min_max`. -/
def bounds_msg (v : Int) (scale : String) (mn mx : Int) : String :=
  toString v ++ " is not valid for " ++ scale ++
    ". Valid options are between " ++ toString mn ++ " and " ++ toString mx ++ "."

/-- `_is_in_range`: the wraparound-aware range test (1 = match). -/
def is_in_range (x low : Int) (high : Option Int) : Nat :=
  match high with
  | none => if low ≠ x then 0 else 1
  | some h =>
    if low = h then (if low ≠ x then 0 else 1)
    else if h > low then (if x > h ∨ x < low then 0 else 1)
    else if low > h then (if ¬(x ≥ low ∨ x ≤ h) then 0 else 1)
    else 1

/-- `_in_min_max`: parse both bounds as integers and check them against
the scale's domain, with the source's error order (low is parsed and
checked before high is parsed). -/
def in_min_max (low : List Char) (high : Option (List Char)) (mn mx : Int)
    (scale : String) : Except String (Int × Option Int) :=
  match pyInt low with
  | none => .error ("An integer value is required for " ++ scale ++ ".")
  | some l =>
    if l < mn || l > mx then .error (bounds_msg l scale mn mx)
    else
      match high with
      | none => .ok (l, none)
      | some hs =>
        match pyInt hs with
        | none => .error ("An integer value is required for " ++ scale ++ ".")
        | some h =>
          if h < mn || h > mx then .error (bounds_msg h scale mn mx)
          else .ok (l, some h)

/-- The `for range in ranges` loop shared by every scale evaluator:
return 1 at the first matching range, 0 when none matches, propagating
errors raised while resolving a range. -/
def loop_ranges (test : List Char → Except String Bool) :
    List (List Char) → Except String Nat
  | [] => .ok 0
  | r :: rest =>
    match test r with
    | .error e => .error e
    | .ok true => .ok 1
    | .ok false => loop_ranges test rest

/-- The per-range body of `_simple_test`. -/
def simple_test_range (now : Int) (mn mx : Int) (scale : String)
    (r : List Char) : Except String Bool :=
  let lh := splitrange r
  match in_min_max lh.1 lh.2 mn mx scale with
  | .error e => .error e
  | .ok (l, h) => .ok (is_in_range now l h != 0)

/-- `_simple_test`: test the current value `now` against each range. -/
def simple_test (now : Int) (ranges : List (List Char)) (mn mx : Int)
    (scale : String) : Except String Nat :=
  loop_ranges (simple_test_range now mn mx scale) ranges

/-- `yr.normal_year` on one (present) bound string: parse the integer
and expand a value below 100 with the century of the evaluation
timestamp, `100 * (dt.year / 100) + year` (floor division). -/
def normal_year_val (s : List Char) (dt : PyDateTime) : Except String Int :=
  match pyInt s with
  | none => .error "An integer value is required for year."
  | some v => .ok (if v < 100 then 100 * ((dt.year : Int) / 100) + v else v)

/-- `normal_year` lifted to the optional high bound. -/
def normal_year_opt (s : Option (List Char)) (dt : PyDateTime) :
    Except String (Option Int) :=
  match s with
  | none => .ok none
  | some v =>
    match normal_year_val v dt with
    | .error e => .error e
    | .ok n => .ok (some n)

/-- The per-range body of `yr`: no domain check, century expansion on
both bounds. -/
def yr_test (dt : PyDateTime) (r : List Char) : Except String Bool :=
  let lh := splitrange r
  match normal_year_val lh.1 dt with
  | .error e => .error e
  | .ok l =>
    match normal_year_opt lh.2 dt with
    | .error e => .error e
    | .ok h => .ok (is_in_range (dt.year : Int) l h != 0)

/-- The month-name substitutions of `mo`, in the insertion order of the
`MONTHS` dict literal (the iteration order on CPython 3.6+; earlier
interpreters iterate in an arbitrary order, which for these disjoint
keys produces the same result). -/
def MONTH_SUBS : List (List Char × List Char) :=
  [("jan".data, "1".data), ("feb".data, "2".data), ("mar".data, "3".data),
   ("apr".data, "4".data), ("may".data, "5".data), ("jun".data, "6".data),
   ("jul".data, "7".data), ("aug".data, "8".data), ("sep".data, "9".data),
   ("oct".data, "10".data), ("nov".data, "11".data), ("dec".data, "12".data)]

/-- The weekday-name substitutions of `wd`, Sunday = 1 … Saturday = 7. -/
def DAY_SUBS : List (List Char × List Char) :=
  [("su".data, "1".data), ("mo".data, "2".data), ("tu".data, "3".data),
   ("we".data, "4".data), ("th".data, "5".data), ("fr".data, "6".data),
   ("sa".data, "7".data)]

/-- Fuel-driven worker for `re.sub(key + ".*?(?=\s|-|$)", val, s)`: at
each occurrence of `key` replace it together with the following
characters up to (excluding) the next whitespace, dash or end of the
token; scanning resumes after the replaced span. -/
def py_subst_f : Nat → List Char → List Char → List Char → List Char
  | 0, _, _, s => s
  | _ + 1, _, _, [] => []
  | f + 1, key, val, c :: rest =>
    if key.isPrefixOf (c :: rest) && key ≠ [] then
      val ++ py_subst_f f key val
        (((c :: rest).drop key.length).dropWhile (fun d => !(pyWs d || d = '-')))
    else c :: py_subst_f f key val rest

/-- Replace every occurrence of a day/month abbreviation (plus its tail
up to the next whitespace, dash or token end) with its numeric code. -/
def py_subst (key val s : List Char) : List Char :=
  py_subst_f s.length key val s

/-- The per-range body of `mo`: resolve month names, then parse and
domain-check against [1, 12]. -/
def mo_test (dt : PyDateTime) (r : List Char) : Except String Bool :=
  let r := MONTH_SUBS.foldl (fun acc kv => py_subst kv.1 kv.2 acc) r
  let lh := splitrange r
  match in_min_max lh.1 lh.2 1 12 "month" with
  | .error e => .error e
  | .ok (l, h) => .ok (is_in_range (dt.month : Int) l h != 0)

/-- The weekday value tested by `wd`: `(dt.weekday() + 2) % 7`, with 0
corrected to 7, giving Sunday = 1 … Saturday = 7. -/
def wd_today (dt : PyDateTime) : Nat :=
  if (dt.weekday + 2) % 7 = 0 then 7 else (dt.weekday + 2) % 7

/-- The per-range body of `wd`: resolve day names, then parse and
domain-check against [1, 7]. -/
def wd_test (dt : PyDateTime) (r : List Char) : Except String Bool :=
  let r := DAY_SUBS.foldl (fun acc kv => py_subst kv.1 kv.2 acc) r
  let lh := splitrange r
  match in_min_max lh.1 lh.2 1 7 "weekday" with
  | .error e => .error e
  | .ok (l, h) => .ok (is_in_range (wd_today dt : Int) l h != 0)

/-- `hr.normal_hour` on one bound string. -/
def normal_hour (s : List Char) : Except String Int :=
  match pyInt s with
  | none => .error "An integer value is required for hour."
  | some v => .ok v

/-- The per-range body of `hr`: both bounds go through `normal_hour`,
then through `_in_min_max`, where `int()` on the already-parsed integer
is the identity and only the [0, 23] domain checks remain. -/
def hr_test (dt : PyDateTime) (r : List Char) : Except String Bool :=
  let lh := splitrange r
  match normal_hour lh.1 with
  | .error e => .error e
  | .ok l =>
    match (match lh.2 with
           | none => (.ok none : Except String (Option Int))
           | some hs =>
             match normal_hour hs with
             | .error e => .error e
             | .ok v => .ok (some v)) with
    | .error e => .error e
    | .ok h =>
      if l < 0 || l > 23 then .error (bounds_msg l "hour" 0 23)
      else
        match h with
        | none => .ok (is_in_range (dt.hour : Int) l none != 0)
        | some hv =>
          if hv < 0 || hv > 23 then .error (bounds_msg hv "hour" 0 23)
          else .ok (is_in_range (dt.hour : Int) l (some hv) != 0)

/-- The current week-of-month value of `wk`: `(dt.day - 1) / 7 + 1`
(floor division). -/
def wk_now (dt : PyDateTime) : Int :=
  ((dt.day : Int) - 1) / 7 + 1

/-- `yr`. -/
def yr (ranges : List (List Char)) (dt : PyDateTime) : Except String Nat :=
  loop_ranges (yr_test dt) ranges

/-- `mo`. -/
def mo (ranges : List (List Char)) (dt : PyDateTime) : Except String Nat :=
  loop_ranges (mo_test dt) ranges

/-- `wk`. -/
def wk (ranges : List (List Char)) (dt : PyDateTime) : Except String Nat :=
  simple_test (wk_now dt) ranges 1 5 "week"

/-- `yd`. -/
def yd (ranges : List (List Char)) (dt : PyDateTime) : Except String Nat :=
  simple_test (dt.yday : Int) ranges 1 366 "year day"

/-- `md`. -/
def md (ranges : List (List Char)) (dt : PyDateTime) : Except String Nat :=
  simple_test (dt.day : Int) ranges 1 31 "day"

/-- `wd`. -/
def wd (ranges : List (List Char)) (dt : PyDateTime) : Except String Nat :=
  loop_ranges (wd_test dt) ranges

/-- `hr`. -/
def hr (ranges : List (List Char)) (dt : PyDateTime) : Except String Nat :=
  loop_ranges (hr_test dt) ranges

/-- `min`. -/
def min (ranges : List (List Char)) (dt : PyDateTime) : Except String Nat :=
  simple_test (dt.minute : Int) ranges 0 59 "minute"

/-- `sec`. -/
def sec (ranges : List (List Char)) (dt : PyDateTime) : Except String Nat :=
  simple_test (dt.second : Int) ranges 0 59 "second"

/-- The per-range test of each scale kind (the body of that scale's
`for range in ranges` loop). -/
def scale_test (k : Scale) (dt : PyDateTime) : List Char → Except String Bool :=
  match k with
  | .yr => yr_test dt
  | .mo => mo_test dt
  | .wk => simple_test_range (wk_now dt) 1 5 "week"
  | .yd => simple_test_range (dt.yday : Int) 1 366 "year day"
  | .md => simple_test_range (dt.day : Int) 1 31 "day"
  | .wd => wd_test dt
  | .hr => hr_test dt
  | .min => simple_test_range (dt.minute : Int) 0 59 "minute"
  | .sec => simple_test_range (dt.second : Int) 0 59 "second"

/-- `SCALES[scale](range_lists[scale], dt)`. -/
def run_scale (k : Scale) (ranges : List (List Char)) (dt : PyDateTime) :
    Except String Nat :=
  match k with
  | .yr => yr ranges dt
  | .mo => mo ranges dt
  | .wk => wk ranges dt
  | .yd => yd ranges dt
  | .md => md ranges dt
  | .wd => wd ranges dt
  | .hr => hr ranges dt
  | .min => min ranges dt
  | .sec => sec ranges dt

/-- Append new ranges to the existing entry of a scale code, or add a
fresh entry at the end (the accumulation of `range_lists`). -/
def add_ranges (rls : List (List Char × Scale × List (List Char)))
    (sc : List Char) (k : Scale) (rs : List (List Char)) :
    List (List Char × Scale × List (List Char)) :=
  match rls with
  | [] => [(sc, k, rs)]
  | (sc', k', rs') :: rest =>
    if sc' = sc then (sc', k', rs' ++ rs) :: rest
    else (sc', k', rs') :: add_ranges rest sc k rs

/-- The first loop of `_is_in_sub_period`, processing the fragments in
order with the accumulated table so far. -/
def build_range_lists_from (acc : List (List Char × Scale × List (List Char))) :
    List (List Char) →
    Except String (List (List Char × Scale × List (List Char)))
  | [] => .ok acc
  | fr :: rest =>
    match parse_scale fr with
    | .error e => .error e
    | .ok (sc, k, rs) => build_range_lists_from (add_ranges acc sc k rs) rest

/-- The first loop of `_is_in_sub_period`: parse every scale-test
fragment and accumulate the range lists per scale code (dict insertion
order; ranges of a repeated code are appended at the end). -/
def build_range_lists (frs : List (List Char)) :
    Except String (List (List Char × Scale × List (List Char))) :=
  build_range_lists_from [] frs

/-- The second loop of `_is_in_sub_period`: evaluate each accumulated
scale, returning the first result that is not 1 (AND logic). -/
def eval_scales (rls : List (List Char × Scale × List (List Char)))
    (dt : PyDateTime) : Except String Nat :=
  match rls with
  | [] => .ok 1
  | (_, k, rs) :: rest =>
    match run_scale k rs dt with
    | .error e => .error e
    | .ok n => if n != 1 then .ok n else eval_scales rest dt

/-- `_is_in_sub_period`. -/
def is_in_sub_period (sp : List Char) (dt : PyDateTime) : Except String Nat :=
  if sp = "never".data then .ok 0
  else if sp = "none".data || sp = "always".data || sp = [] then .ok 1
  else
    match build_range_lists (split_on_char '|' sp) with
    | .error e => .error e
    | .ok rls => eval_scales rls dt

/-- The sub-period loop of `in_period`: OR logic with short-circuit on
the first truthy sub-period. -/
def loop_subs (sps : List (List Char)) (dt : PyDateTime) : Except String Bool :=
  match sps with
  | [] => .ok false
  | sp :: rest =>
    match is_in_sub_period sp dt with
    | .error e => .error e
    | .ok n => if n != 0 then .ok true else loop_subs rest dt

/-- `in_period`: normalize, answer `True` for the empty expression,
otherwise try the comma-separated sub-periods in order. -/
def in_period (period : List Char) (dt : PyDateTime) : Except String Bool :=
  let p := normalize period
  if p = [] then .ok true
  else loop_subs (split_on_char ',' p) dt

/-- `Except` equality is decidable componentwise. -/
instance {α : Type} [DecidableEq α] : DecidableEq (Except String α) := fun a b =>
  match a, b with
  | .error x, .error y =>
    if h : x = y then isTrue (by rw [h]) else isFalse (by simp [h])
  | .error _, .ok _ => isFalse (by simp)
  | .ok _, .error _ => isFalse (by simp)
  | .ok x, .ok y =>
    if h : x = y then isTrue (by rw [h]) else isFalse (by simp [h])

/-- Whether an `Except` computation succeeded. -/
def exc_ok {α : Type} (e : Except String α) : Bool :=
  match e with
  | .ok _ => true
  | .error _ => false

/-- All adjacent pairs of the string satisfy `q`. -/
def pairsOk (q : Char → Char → Bool) : List Char → Bool
  | a :: b :: rest => q a b && pairsOk q (b :: rest)
  | _ => true

/-- The adjacency conditions under which every pass of the normalizer
fixes the string: no whitespace before a brace or dash, none after a
comma, dash or brace, and every closing brace immediately followed by
a comma. -/
def q_all (a b : Char) : Bool :=
  !(pyWs a && b = '\x7b') && !(a = ',' && pyWs b) &&
  !(pyWs a && b = '-') && !(a = '-' && pyWs b) &&
  !(a = '\x7b' && pyWs b) && !(pyWs a && b = '\x7d') &&
  !(a = '\x7d' && pyWs b) && !(a = '\x7d' && b != ',')

/-- The first character (if any) is not whitespace. -/
def head_not_ws : List Char → Bool
  | [] => true
  | c :: _ => !pyWs c

/-- A normalized-shape string that every normalizer pass leaves
unchanged: no leading or trailing whitespace, the adjacency conditions
of `q_all`, and no uppercase characters. -/
def norm_fixed (s : List Char) : Bool :=
  head_not_ws s && head_not_ws s.reverse && pairsOk q_all s &&
  s.all (fun c => c.toLower = c)

/-! ## Evaluation lemmas -/

lemma loop_ranges_val {test : List Char → Except String Bool}
    {rs : List (List Char)} {n : Nat}
    (h : loop_ranges test rs = .ok n) : n = 0 ∨ n = 1 := by
  induction rs with
  | nil => simp [loop_ranges] at h; omega
  | cons r rest ih =>
    simp only [loop_ranges] at h
    cases ht : test r with
    | error e => rw [ht] at h; simp at h
    | ok b =>
      rw [ht] at h
      cases b with
      | false => exact ih h
      | true => simp at h; omega

lemma run_scale_val {k : Scale} {rs : List (List Char)} {dt : PyDateTime}
    {n : Nat} (h : run_scale k rs dt = .ok n) : n = 0 ∨ n = 1 := by
  cases k <;> exact loop_ranges_val h

lemma eval_scales_val {rls : List (List Char × Scale × List (List Char))}
    {dt : PyDateTime} {n : Nat}
    (h : eval_scales rls dt = .ok n) : n = 0 ∨ n = 1 := by
  induction rls with
  | nil => simp [eval_scales] at h; omega
  | cons ent rest ih =>
    obtain ⟨sc, k, rs⟩ := ent
    simp only [eval_scales] at h
    cases hr : run_scale k rs dt with
    | error e => rw [hr] at h; simp at h
    | ok m =>
      rw [hr] at h
      by_cases hm : m = 1
      · subst hm; simp at h; exact ih h
      · have hb : (m != 1) = true := by simpa using hm
        simp [hb] at h
        rcases run_scale_val hr with h0 | h1 <;> omega

lemma is_in_sub_period_val {sp : List Char} {dt : PyDateTime} {n : Nat}
    (h : is_in_sub_period sp dt = .ok n) : n = 0 ∨ n = 1 := by
  simp only [is_in_sub_period] at h
  split at h
  · simp at h; omega
  · split at h
    · simp at h; omega
    · cases hb : build_range_lists (split_on_char '|' sp) with
      | error e => rw [hb] at h; simp at h
      | ok rls => rw [hb] at h; exact eval_scales_val h

lemma loop_ranges_iff (test : List Char → Except String Bool)
    (rs : List (List Char)) (hok : ∀ r ∈ rs, exc_ok (test r) = true) :
    loop_ranges test rs = .ok 1 ↔ ∃ r ∈ rs, test r = .ok true := by
  induction rs with
  | nil => simp [loop_ranges]
  | cons r rest ih =>
    have hr := hok r (by simp)
    cases ht : test r with
    | error e => rw [ht] at hr; simp [exc_ok] at hr
    | ok b =>
      cases b with
      | true => simp [loop_ranges, ht]
      | false =>
        simp [loop_ranges, ht, ih (fun x hx => hok x (by simp [hx]))]

lemma eval_scales_iff (rls : List (List Char × Scale × List (List Char)))
    (dt : PyDateTime) :
    eval_scales rls dt = .ok 1 ↔
      ∀ e ∈ rls, run_scale e.2.1 e.2.2 dt = .ok 1 := by
  induction rls with
  | nil => simp [eval_scales]
  | cons ent rest ih =>
    obtain ⟨sc, k, rs⟩ := ent
    cases hr : run_scale k rs dt with
    | error e => simp [eval_scales, hr]
    | ok m =>
      by_cases hm : m = 1
      · subst hm; simp [eval_scales, hr, ih]
      · have hb : (m != 1) = true := by simpa using hm
        simp [eval_scales, hr, hb, hm]

lemma loop_subs_iff (sps : List (List Char)) (dt : PyDateTime)
    (hok : ∀ sp ∈ sps, exc_ok (is_in_sub_period sp dt) = true) :
    loop_subs sps dt = .ok true ↔
      ∃ sp ∈ sps, is_in_sub_period sp dt = .ok 1 := by
  induction sps with
  | nil => simp [loop_subs]
  | cons sp rest ih =>
    have hsp := hok sp (by simp)
    cases hs : is_in_sub_period sp dt with
    | error e => rw [hs] at hsp; simp [exc_ok] at hsp
    | ok n =>
      rcases is_in_sub_period_val hs with h0 | h1
      · subst h0
        simp [loop_subs, hs, ih (fun x hx => hok x (by simp [hx]))]
      · subst h1
        simp [loop_subs, hs]

lemma loop_ranges_cons_true (test : List Char → Except String Bool)
    (r : List Char) (rest : List (List Char)) (h : test r = .ok true) :
    loop_ranges test (r :: rest) = .ok 1 := by
  simp [loop_ranges, h]

lemma loop_subs_cons_ok {sp : List Char} {rest : List (List Char)}
    {dt : PyDateTime} {n : Nat}
    (h : is_in_sub_period sp dt = .ok n) (hn : n ≠ 0) :
    loop_subs (sp :: rest) dt = .ok true := by
  have hb : (n != 0) = true := by simpa using hn
  simp [loop_subs, h, hb]

/-- Evaluation of a period with a single sub-period holding a single
scale test with a single range: the result is the result of that
range test. -/
lemma in_period_single (p sp sc r : List Char) (k : Scale) (dt : PyDateTime)
    (b : Bool)
    (hne : normalize p ≠ [])
    (hsplit : split_on_char ',' (normalize p) = [sp])
    (hsp1 : sp ≠ "never".data)
    (hsp2 : ¬(sp = "none".data ∨ sp = "always".data ∨ sp = []))
    (hbuild : build_range_lists (split_on_char '|' sp) = .ok [(sc, k, [r])])
    (htest : scale_test k dt r = .ok b) :
    in_period p dt = .ok b := by
  have hs2a : sp ≠ "none".data := fun hh => hsp2 (Or.inl hh)
  have hs2b : sp ≠ "always".data := fun hh => hsp2 (Or.inr (Or.inl hh))
  have hs2c : sp ≠ [] := fun hh => hsp2 (Or.inr (Or.inr hh))
  have h1 : in_period p dt = loop_subs [sp] dt := by
    simp [in_period, hne, hsplit]
  have h2 : run_scale k [r] dt = loop_ranges (scale_test k dt) [r] := by
    cases k <;> rfl
  have h3 : loop_ranges (scale_test k dt) [r] = .ok (if b then 1 else 0) := by
    cases b <;> simp [loop_ranges, htest]
  have h4 : is_in_sub_period sp dt = .ok (if b then 1 else 0) := by
    cases b <;>
      simp [is_in_sub_period, hsp1, hs2a, hs2b, hs2c, hbuild, eval_scales, h2, h3]
  rw [h1]
  cases b <;> simp [loop_subs, h4]

/-! ## Normalizer fixpoint lemmas -/

lemma pairsOk_cons {q : Char → Char → Bool} {a : Char} {l : List Char}
    (h : pairsOk q (a :: l) = true) : pairsOk q l = true := by
  cases l with
  | nil => rfl
  | cons b rest => simp only [pairsOk, Bool.and_eq_true] at h; exact h.2

lemma pairsOk_head {q : Char → Char → Bool} {a b : Char} {l : List Char}
    (h : pairsOk q (a :: b :: l) = true) : q a b = true := by
  simp only [pairsOk, Bool.and_eq_true] at h; exact h.1

lemma pairsOk_suffix {q : Char → Char → Bool} {ys : List Char} :
    ∀ {xs : List Char}, pairsOk q (xs ++ ys) = true → pairsOk q ys = true := by
  intro xs
  induction xs with
  | nil => exact fun h => h
  | cons a rest ih => exact fun h => ih (pairsOk_cons h)

lemma pairsOk_junction {q : Char → Char → Bool} {d : Char} {ys : List Char} :
    ∀ {xs : List Char}, xs ≠ [] → pairsOk q (xs ++ d :: ys) = true →
      ∃ a ∈ xs, q a d = true := by
  intro xs
  induction xs with
  | nil => exact fun hx _ => absurd rfl hx
  | cons a rest ih =>
    intro _ h
    cases hr : rest with
    | nil =>
      subst hr
      exact ⟨a, by simp, pairsOk_head h⟩
    | cons b rest' =>
      subst hr
      obtain ⟨x, hx2, hq⟩ := ih (by simp) (pairsOk_cons h)
      exact ⟨x, List.mem_cons_of_mem _ hx2, hq⟩

lemma pairsOk_mono {q q' : Char → Char → Bool}
    (himp : ∀ a b, q a b = true → q' a b = true) :
    ∀ {s : List Char}, pairsOk q s = true → pairsOk q' s = true := by
  intro s
  induction s with
  | nil => exact fun _ => rfl
  | cons a rest ih =>
    intro h
    cases rest with
    | nil => rfl
    | cons b rest' =>
      simp only [pairsOk, Bool.and_eq_true] at h ⊢
      exact ⟨himp _ _ h.1, ih h.2⟩

lemma head_not_ws_append_left {l₁ l₂ : List Char} (h : l₁ ≠ []) :
    head_not_ws (l₁ ++ l₂) = head_not_ws l₁ := by
  cases l₁ with
  | nil => exact absurd rfl h
  | cons a t => rfl

lemma strip_id {s : List Char} (hh : head_not_ws s = true)
    (hl : head_not_ws s.reverse = true) : strip s = s := by
  have h1 : s.dropWhile pyWs = s := by
    cases s with
    | nil => rfl
    | cons c r =>
      have hc : pyWs c = false := by simpa [head_not_ws] using hh
      exact List.dropWhile_cons_of_neg (by simp [hc])
  have h2 : s.reverse.dropWhile pyWs = s.reverse := by
    cases hrev : s.reverse with
    | nil => rfl
    | cons c r =>
      rw [hrev] at hl
      have hc : pyWs c = false := by simpa [head_not_ws] using hl
      exact List.dropWhile_cons_of_neg (by simp [hc])
  rw [strip, h1, h2, List.reverse_reverse]

lemma del_ws_after_f_id (trig : Char → Bool) :
    ∀ (f : Nat) (s : List Char), s.length ≤ f →
      pairsOk (fun a b => !(trig a && pyWs b)) s = true →
      del_ws_after_f f trig s = s := by
  intro f
  induction f with
  | zero => intro s _ _; rfl
  | succ f ih =>
    intro s hf hp
    cases s with
    | nil => rfl
    | cons a s' =>
      cases s' with
      | nil => rfl
      | cons b rest =>
        have hab : (trig a && pyWs b) = false := by
          have h0 := pairsOk_head hp
          revert h0
          cases trig a && pyWs b <;> simp
        have hrec := ih (b :: rest) (by simp at hf ⊢; omega) (pairsOk_cons hp)
        simp only [del_ws_after_f, hab]
        simp [hrec]

lemma del_ws_after_id {trig : Char → Bool} {s : List Char}
    (hp : pairsOk (fun a b => !(trig a && pyWs b)) s = true) :
    del_ws_after trig s = s :=
  del_ws_after_f_id trig s.length s le_rfl hp

lemma del_ws_bre_f_id (trig : Char → Bool) (endT : Bool) :
    ∀ (f : Nat) (s : List Char), s.length ≤ f →
      pairsOk (fun a b => !(pyWs a && trig b)) s = true →
      head_not_ws s.reverse = true →
      del_ws_bre_f f trig endT s = s := by
  intro f
  induction f with
  | zero => intro s _ _ _; rfl
  | succ f ih =>
    intro s hf hp hl
    cases s with
    | nil => rfl
    | cons c rest =>
      by_cases hc : pyWs c = true
      · cases hdrop : (c :: rest).dropWhile pyWs with
        | nil =>
          exfalso
          have hall := List.dropWhile_eq_nil_iff.mp hdrop
          cases hrev : (c :: rest).reverse with
          | nil => simp at hrev
          | cons rc rrest =>
            have hmem : rc ∈ c :: rest := by
              have hmem0 : rc ∈ (c :: rest).reverse := by
                rw [hrev]; exact List.mem_cons_self _ _
              exact List.mem_reverse.mp hmem0
            have hws := hall rc hmem
            rw [hrev] at hl
            simp [head_not_ws, hws] at hl
        | cons d tail =>
          have hsplit : (c :: rest).takeWhile pyWs ++ d :: tail = c :: rest := by
            rw [← hdrop]; exact List.takeWhile_append_dropWhile pyWs _
          have htw : (c :: rest).takeWhile pyWs = c :: rest.takeWhile pyWs :=
            List.takeWhile_cons_of_pos hc
          by_cases hd : trig d = true
          · exfalso
            have hp' : pairsOk (fun a b => !(pyWs a && trig b))
                ((c :: rest).takeWhile pyWs ++ d :: tail) = true := by
              rw [hsplit]; exact hp
            obtain ⟨x, hx, hq⟩ := pairsOk_junction (by rw [htw]; simp) hp'
            have hxws : pyWs x = true := List.mem_takeWhile_imp hx
            simp [hxws, hd] at hq
          · have hlen : (d :: tail).length ≤ f := by
              have h1 := congrArg List.length hsplit
              rw [htw] at h1
              simp only [List.length_append, List.length_cons] at h1 hf ⊢
              omega
            have hp'' : pairsOk (fun a b => !(pyWs a && trig b)) (d :: tail) = true := by
              rw [← hsplit] at hp; exact pairsOk_suffix hp
            have hl'' : head_not_ws (d :: tail).reverse = true := by
              rw [← hsplit, List.reverse_append] at hl
              rwa [head_not_ws_append_left (by simp)] at hl
            have hrec := ih (d :: tail) hlen hp'' hl''
            have hstep : del_ws_bre_f (f + 1) trig endT (c :: rest)
                = (c :: rest).takeWhile pyWs ++ del_ws_bre_f f trig endT (d :: tail) := by
              simp only [del_ws_bre_f, hc, hdrop]
              simp [hd]
            rw [hstep, hrec, hsplit]
      · have hl' : head_not_ws rest.reverse = true := by
          cases hrest : rest with
          | nil => rfl
          | cons d tail =>
            rw [show (c :: rest).reverse = rest.reverse ++ [c] from by simp] at hl
            rwa [hrest, head_not_ws_append_left (by simp)] at hl
        have hrec := ih rest (by simp at hf ⊢; omega) (pairsOk_cons hp) hl'
        simp only [del_ws_bre_f, hc]
        simp [hc, hrec]

lemma del_ws_bre_id {trig : Char → Bool} {endT : Bool} {s : List Char}
    (hp : pairsOk (fun a b => !(pyWs a && trig b)) s = true)
    (hl : head_not_ws s.reverse = true) :
    del_ws_bre trig endT s = s :=
  del_ws_bre_f_id trig endT s.length s le_rfl hp hl

lemma or_marker_id :
    ∀ {s : List Char}, pairsOk (fun a b => !(a = '\x7d' && b != ',')) s = true →
      or_marker s = s := by
  intro s
  induction s with
  | nil => exact fun _ => rfl
  | cons a rest ih =>
    intro hp
    cases rest with
    | nil => rfl
    | cons b rest' =>
      have hab : (a = '\x7d' && b != ',') = false := by
        have h0 := pairsOk_head hp
        revert h0
        cases ha : (a = '\x7d' && b != ',') <;> simp [ha]
      simp only [or_marker, hab]
      simp [ih (pairsOk_cons hp)]

lemma pyLower_id :
    ∀ {s : List Char}, s.all (fun c => c.toLower = c) = true → pyLower s = s := by
  intro s
  induction s with
  | nil => exact fun _ => rfl
  | cons c rest ih =>
    intro h
    simp only [List.all_cons, Bool.and_eq_true] at h
    have h1 : c.toLower = c := by simpa using h.1
    exact congrArg₂ List.cons h1 (ih h.2)

/-! ## Claim theorems -/

/-- Claim C2: for every well-formed period expression (every sub-period
evaluates without a format error) and every timestamp: the whole
expression matches iff at least one comma-separated sub-period matches
(OR); a non-special sub-period matches iff every one of its accumulated
scale tests matches (AND); and a scale test matches iff any of its
accumulated ranges matches (OR among ranges). -/
theorem claim_c2_or_and_semantics (p : List Char) (dt : PyDateTime)
    (hok : ∀ sp ∈ split_on_char ',' (normalize p),
      exc_ok (is_in_sub_period sp dt) = true) :
    (in_period p dt = .ok true ↔
      ∃ sp ∈ split_on_char ',' (normalize p),
        is_in_sub_period sp dt = .ok 1) ∧
    (∀ sp ∈ split_on_char ',' (normalize p), sp ≠ "never".data →
      ¬(sp = "none".data ∨ sp = "always".data ∨ sp = []) →
      ∀ rls, build_range_lists (split_on_char '|' sp) = .ok rls →
      (is_in_sub_period sp dt = .ok 1 ↔
        ∀ e ∈ rls, run_scale e.2.1 e.2.2 dt = .ok 1)) ∧
    (∀ (k : Scale) (ranges : List (List Char)),
      (∀ r ∈ ranges, exc_ok (scale_test k dt r) = true) →
      (run_scale k ranges dt = .ok 1 ↔
        ∃ r ∈ ranges, scale_test k dt r = .ok true)) := by
  refine ⟨?_, ?_, ?_⟩
  · by_cases hp : normalize p = []
    · constructor
      · intro _
        refine ⟨[], ?_, rfl⟩
        rw [hp]
        simp [split_on_char]
      · intro _
        simp [in_period, hp]
    · have h1 : in_period p dt
          = loop_subs (split_on_char ',' (normalize p)) dt := by
        simp [in_period, hp]
      rw [h1]
      exact loop_subs_iff _ dt hok
  · intro sp _ h1 h2 rls hb
    have h2a : sp ≠ "none".data := fun hh => h2 (Or.inl hh)
    have h2b : sp ≠ "always".data := fun hh => h2 (Or.inr (Or.inl hh))
    have h2c : sp ≠ [] := fun hh => h2 (Or.inr (Or.inr hh))
    have h3 : is_in_sub_period sp dt = eval_scales rls dt := by
      simp [is_in_sub_period, h1, h2a, h2b, h2c, hb]
    rw [h3]
    exact eval_scales_iff rls dt
  · intro k ranges hok3
    have h1 : run_scale k ranges dt = loop_ranges (scale_test k dt) ranges := by
      cases k <;> rfl
    rw [h1]
    exact loop_ranges_iff _ _ hok3

/-- Witness for C2 at `"hr \x7b9-16\x7d, md \x7b1\x7d"` and the timestamp
2014-02-11 12:05 (both sub-periods evaluate without error). -/
theorem claim_c2_or_and_semantics_witness :
    in_period "hr \x7b9-16\x7d, md \x7b1\x7d".data ⟨2014, 2, 11, 12, 5, 0, 1, 42⟩
        = .ok true ↔
      ∃ sp ∈ split_on_char ','
          (normalize "hr \x7b9-16\x7d, md \x7b1\x7d".data),
        is_in_sub_period sp ⟨2014, 2, 11, 12, 5, 0, 1, 42⟩ = .ok 1 :=
  (claim_c2_or_and_semantics "hr \x7b9-16\x7d, md \x7b1\x7d".data
    ⟨2014, 2, 11, 12, 5, 0, 1, 42⟩ (by decide)).1

/-- Claim C1: for every integer value `x` and parsed range `(low, high)`,
the range matches (`_is_in_range` returns 1) iff `x == low` when `high`
is absent or equal to `low`; iff `low ≤ x ≤ high` when `high > low`;
and iff `x ≥ low` or `x ≤ high` when `high < low` (wraparound).  Every
scale evaluator applies this rule through `is_in_range`, which is the
unique range test called by `yr_test`, `mo_test`, `wd_test`, `hr_test`
and `simple_test_range`. -/
theorem claim_c1_range_matching (x low : Int) (high : Option Int) :
    is_in_range x low high = 1 ↔
      (match high with
       | none => x = low
       | some h =>
         if h = low then x = low
         else if h > low then low ≤ x ∧ x ≤ h
         else x ≥ low ∨ x ≤ h) := by
  cases high with
  | none =>
    simp only [is_in_range, ne_eq, ite_not]
    split_ifs <;> constructor <;> intro hh <;>
      first | exact hh.elim | trivial | omega
  | some h =>
    simp only [is_in_range, ne_eq, ite_not]
    split_ifs <;> constructor <;> intro hh <;>
      first | exact hh.elim | trivial | omega

/-- Claim C3: for every timestamp, the empty expression and `"always"`
match, `"never"` does not. -/
theorem claim_c3_constants (dt : PyDateTime) :
    in_period "".data dt = .ok true ∧
    in_period "never".data dt = .ok false ∧
    in_period "always".data dt = .ok true :=
  ⟨rfl, rfl, rfl⟩

/-- Claim C5: month-name abbreviations in a range token are substituted
by their numeric codes before numeric parsing, so `"mo \x7bjan-mar\x7d"`
evaluates exactly like `"mo \x7b1-3\x7d"` on every timestamp. -/
theorem claim_c5_month_names (dt : PyDateTime) :
    in_period "mo \x7bjan-mar\x7d".data dt = in_period "mo \x7b1-3\x7d".data dt :=
  rfl

/-- Claim C6: a year bound below 100 is expanded with the century of the
evaluation timestamp, `year + 100 * (eval_year // 100)` with floor
division; in particular at evaluation year 2014 the bound `14` expands
to 2014 and `"yr \x7b14\x7d"` matches. -/
theorem claim_c6_two_digit_year (dt : PyDateTime) :
    (∀ (s : List Char) (v : Int), pyInt s = some v → v < 100 →
       normal_year_val s dt = .ok (v + 100 * ((dt.year : Int) / 100))) ∧
    (dt.year = 2014 → in_period "yr \x7b14\x7d".data dt = .ok true) := by
  constructor
  · intro s v hs hv
    simp only [normal_year_val, hs, if_pos hv]
    rw [Int.add_comm]
  · intro hy
    have h0 : yr_test dt "14".data
        = .ok (is_in_range (dt.year : Int)
            (100 * ((dt.year : Int) / 100) + 14) none != 0) := rfl
    have hyr : yr_test dt "14".data = .ok true := by
      rw [h0, hy]; decide
    exact in_period_single "yr \x7b14\x7d".data "yr\x7b14\x7d".data
      "yr".data "14".data .yr dt true (by decide) (by decide) (by decide)
      (by decide) (by decide) hyr

/-- Witness for C6 at the timestamp 2014-02-11 12:05: the bound string
"14" expands to 2014 and the period `"yr \x7b14\x7d"` matches. -/
theorem claim_c6_two_digit_year_witness :
    normal_year_val "14".data ⟨2014, 2, 11, 12, 5, 0, 1, 42⟩ = .ok 2014 ∧
    in_period "yr \x7b14\x7d".data ⟨2014, 2, 11, 12, 5, 0, 1, 42⟩ = .ok true :=
  ⟨(claim_c6_two_digit_year ⟨2014, 2, 11, 12, 5, 0, 1, 42⟩).1 "14".data 14
      (by decide) (by decide),
   (claim_c6_two_digit_year ⟨2014, 2, 11, 12, 5, 0, 1, 42⟩).2 rfl⟩

/-- Claim C7: the spec's invalid inputs raise `InvalidFormat` with a
diagnostic message: an unknown scale code, a non-integer bound, and an
out-of-domain bound on a non-year scale, the last message naming the
scale, the offending value and the valid bounds. -/
theorem claim_c7_invalid_format (dt : PyDateTime) :
    in_period "xx \x7b1\x7d".data dt = .error "xx is not a valid scale." ∧
    in_period "hr \x7ba\x7d".data dt
      = .error "An integer value is required for hour." ∧
    in_period "hr \x7b25\x7d".data dt
      = .error "25 is not valid for hour. Valid options are between 0 and 23." :=
  ⟨rfl, rfl, rfl⟩

/-- Claim C10: `_parse_scale` accepts a fragment whenever it contains
word characters immediately followed by a brace-delimited body anywhere
inside it, so leading junk characters are ignored:
`"#hr \x7b12\x7d"` evaluates exactly like `"hr \x7b12\x7d"`. -/
theorem claim_c10_lenient_parse (dt : PyDateTime) :
    in_period "#hr \x7b12\x7d".data dt = in_period "hr \x7b12\x7d".data dt ∧
    parse_scale "#hr\x7b12\x7d".data = .ok ("hr".data, .hr, ["12".data]) :=
  ⟨rfl, rfl⟩

/-- Claim C4: `"wd \x7bfr-mo\x7d"` matches exactly the timestamps whose
native weekday (Monday = 0) is Friday (4), Saturday (5), Sunday (6) or
Monday (0), and the tested weekday value is derived from the native
index as `(native + 2) % 7` with 0 corrected to 7 (Sunday = 1 …
Saturday = 7). -/
theorem claim_c4_weekday_wraparound (dt : PyDateTime) (h : dt.weekday ≤ 6) :
    (in_period "wd \x7bfr-mo\x7d".data dt = .ok true ↔
      (dt.weekday = 4 ∨ dt.weekday = 5 ∨ dt.weekday = 6 ∨ dt.weekday = 0)) ∧
    wd_today dt
      = (if (dt.weekday + 2) % 7 = 0 then 7 else (dt.weekday + 2) % 7) := by
  refine ⟨?_, rfl⟩
  have hev : in_period "wd \x7bfr-mo\x7d".data dt
      = .ok (is_in_range (wd_today dt : Int) 6 (some 2) != 0) :=
    in_period_single "wd \x7bfr-mo\x7d".data "wd\x7bfr-mo\x7d".data
      "wd".data "fr-mo".data .wd dt
      (is_in_range (wd_today dt : Int) 6 (some 2) != 0)
      (by decide) (by decide) (by decide) (by decide) (by decide) rfl
  rw [hev]
  obtain ⟨y, mon, d, hh, mi, s, w, yd2⟩ := dt
  have hw : w ≤ 6 := h
  interval_cases w <;> simp [wd_today, is_in_range]

/-- Witness for C4 at 2007-06-01 14:00, a Friday (native weekday 4). -/
theorem claim_c4_weekday_wraparound_witness :
    (in_period "wd \x7bfr-mo\x7d".data ⟨2007, 6, 1, 14, 0, 0, 4, 152⟩
        = .ok true ↔
      ((⟨2007, 6, 1, 14, 0, 0, 4, 152⟩ : PyDateTime).weekday = 4 ∨
       (⟨2007, 6, 1, 14, 0, 0, 4, 152⟩ : PyDateTime).weekday = 5 ∨
       (⟨2007, 6, 1, 14, 0, 0, 4, 152⟩ : PyDateTime).weekday = 6 ∨
       (⟨2007, 6, 1, 14, 0, 0, 4, 152⟩ : PyDateTime).weekday = 0)) ∧
    wd_today ⟨2007, 6, 1, 14, 0, 0, 4, 152⟩
      = (if ((⟨2007, 6, 1, 14, 0, 0, 4, 152⟩ : PyDateTime).weekday + 2) % 7 = 0
         then 7
         else ((⟨2007, 6, 1, 14, 0, 0, 4, 152⟩ : PyDateTime).weekday + 2) % 7) :=
  claim_c4_weekday_wraparound ⟨2007, 6, 1, 14, 0, 0, 4, 152⟩ (by decide)

/-- Counterexample to claim C8 as stated: the expression
`"hr \x7b12\x7d, xx \x7b1\x7d"` contains a malformed sub-period (shown by
the second conjunct), yet at hour 12 `in_period` returns a boolean
instead of aborting with `InvalidFormat`: the first sub-period matches
and evaluation short-circuits before the malformed one is parsed. -/
theorem claim_c8_counterexample :
    in_period "hr \x7b12\x7d, xx \x7b1\x7d".data ⟨2014, 2, 11, 12, 5, 0, 1, 42⟩
      = .ok true ∧
    in_period "xx \x7b1\x7d".data ⟨2014, 2, 11, 12, 5, 0, 1, 42⟩
      = .error "xx is not a valid scale." :=
  ⟨rfl, rfl⟩

/-- Counterexample to claim C9 as stated: the normalizer is not
idempotent.  Normalizing `"wd \x7bmo\x7d hr \x7b9\x7d"` yields the
normalized form `"wd\x7bmo\x7d|hr\x7b9\x7d"`, and normalizing that
once more inserts a second OR marker after the closing brace (the rule
`\x7d(?=[^,])` also fires on an inserted `|`). -/
theorem claim_c9_counterexample :
    normalize "wd \x7bmo\x7d hr \x7b9\x7d".data = "wd\x7bmo\x7d|hr\x7b9\x7d".data ∧
    normalize "wd\x7bmo\x7d|hr\x7b9\x7d".data = "wd\x7bmo\x7d||hr\x7b9\x7d".data ∧
    normalize (normalize "wd \x7bmo\x7d hr \x7b9\x7d".data)
      ≠ normalize "wd \x7bmo\x7d hr \x7b9\x7d".data := by
  refine ⟨rfl, rfl, by decide⟩

/-- Claim C8 amended: a format error in a sub-period aborts the entire
evaluation with `InvalidFormat` provided the expression does not
normalize to the empty string and every sub-period tried before the
offending one evaluates to false; evaluation short-circuits on the
first matching sub-period, so malformed text after a match is never
parsed and a boolean is returned instead. -/
theorem claim_c8_amended (p : List Char) (dt : PyDateTime)
    (pre post : List (List Char)) (sp : List Char) (e : String)
    (hne : normalize p ≠ [])
    (hsplit : split_on_char ',' (normalize p) = pre ++ sp :: post)
    (hpre : ∀ q ∈ pre, is_in_sub_period q dt = .ok 0)
    (herr : is_in_sub_period sp dt = .error e) :
    in_period p dt = .error e := by
  have h1 : in_period p dt = loop_subs (split_on_char ',' (normalize p)) dt := by
    simp [in_period, hne]
  rw [h1, hsplit]
  clear h1 hsplit hne
  induction pre with
  | nil => simp [loop_subs, herr]
  | cons q rest ih =>
    have hq := hpre q (by simp)
    simp only [List.cons_append, loop_subs, hq]
    simpa using ih (fun x hx => hpre x (by simp [hx]))

/-- Witness for the amended C8: at hour 12 the first sub-period
`"hr \x7b3\x7d"` fails, so the malformed `"xx \x7b1\x7d"` is reached and
its error aborts the evaluation. -/
theorem claim_c8_amended_witness :
    in_period "hr \x7b3\x7d, xx \x7b1\x7d".data ⟨2014, 2, 11, 12, 5, 0, 1, 42⟩
      = .error "xx is not a valid scale." :=
  claim_c8_amended "hr \x7b3\x7d, xx \x7b1\x7d".data
    ⟨2014, 2, 11, 12, 5, 0, 1, 42⟩ ["hr\x7b3\x7d".data] [] "xx\x7b1\x7d".data
    "xx is not a valid scale."
    (by decide) (by decide) (by decide) (by decide)

/-- Claim C9 amended: the normalizer is not idempotent in general (the
OR-marker rule re-fires on a closing brace followed by an inserted
marker); it is a no-op on every string of normalized shape in which
each closing brace is immediately followed by a comma or the end —
concretely, on strings with no leading/trailing whitespace, no
whitespace adjacent to braces or dashes or after commas, no uppercase
letters, and no closing brace followed by a non-comma character
(`norm_fixed`). -/
theorem claim_c9_amended (s : List Char) (h : norm_fixed s = true) :
    normalize s = s := by
  simp only [norm_fixed, Bool.and_eq_true] at h
  obtain ⟨⟨⟨hh, hl⟩, hp⟩, hlow⟩ := h
  have hq : ∀ a b, q_all a b = true →
      (!(pyWs a && b = '\x7b')) = true ∧ (!(a = ',' && pyWs b)) = true ∧
      (!(pyWs a && b = '-')) = true ∧ (!(a = '-' && pyWs b)) = true ∧
      (!(a = '\x7b' && pyWs b)) = true ∧ (!(pyWs a && b = '\x7d')) = true ∧
      (!(a = '\x7d' && pyWs b)) = true ∧ (!(a = '\x7d' && b != ',')) = true := by
    intro a b hab
    simp only [q_all, Bool.and_eq_true] at hab
    exact ⟨hab.1.1.1.1.1.1.1, hab.1.1.1.1.1.1.2, hab.1.1.1.1.1.2,
           hab.1.1.1.1.2, hab.1.1.1.2, hab.1.1.2, hab.1.2, hab.2⟩
  have e1 : strip s = s := strip_id hh hl
  have e2 : del_ws_bre (· = '\x7b') true s = s :=
    del_ws_bre_id (pairsOk_mono (fun a b hab => (hq a b hab).1) hp) hl
  have e3 : del_ws_after (· = ',') s = s :=
    del_ws_after_id (pairsOk_mono (fun a b hab => (hq a b hab).2.1) hp)
  have e4 : del_ws_bre (· = '-') false s = s :=
    del_ws_bre_id (pairsOk_mono (fun a b hab => (hq a b hab).2.2.1) hp) hl
  have e5 : del_ws_after (· = '-') s = s :=
    del_ws_after_id (pairsOk_mono (fun a b hab => (hq a b hab).2.2.2.1) hp)
  have e6 : del_ws_after (· = '\x7b') s = s :=
    del_ws_after_id (pairsOk_mono (fun a b hab => (hq a b hab).2.2.2.2.1) hp)
  have e7 : del_ws_bre (· = '\x7d') false s = s :=
    del_ws_bre_id (pairsOk_mono (fun a b hab => (hq a b hab).2.2.2.2.2.1) hp) hl
  have e8 : del_ws_after (· = '\x7d') s = s :=
    del_ws_after_id (pairsOk_mono (fun a b hab => (hq a b hab).2.2.2.2.2.2.1) hp)
  have e9 : or_marker s = s :=
    or_marker_id (pairsOk_mono (fun a b hab => (hq a b hab).2.2.2.2.2.2.2) hp)
  have e10 : pyLower s = s := pyLower_id hlow
  simp only [normalize]
  rw [e1, e2, e3, e4, e5, e6, e7, e8, e9, e10]

/-- Witness for the amended C9: a normalized two-sub-period expression
whose closing braces precede a comma or the end (with whitespace inside
a brace-delimited range list) is left unchanged. -/
theorem claim_c9_amended_witness :
    normalize "wd\x7bmo\x7d,md\x7b1 2\x7d".data
      = "wd\x7bmo\x7d,md\x7b1 2\x7d".data :=
  claim_c9_amended "wd\x7bmo\x7d,md\x7b1 2\x7d".data (by decide)

end Timeperiod
